import Mathlib

/-!
# radioRevenue — verification of the status-sync pass and auxiliary routes

Shallow embedding of the parts of the repository that the verified claims
are about:

* the status-sync pass `GET /api/cron/update-job-status`
  (app/api/cron/update-job-status/route.ts): fetch all non-cancelled
  schedules joined with their job, group them by `job_id`, and for each
  job examine the schedule with the greatest end timestamp; if that end
  timestamp is in the past and the job is not completed, set the job and
  that schedule to completed; else if that schedule is running right now
  and the job is not in_progress, set the job to in_progress and the
  schedule to live;
* the manual `updateJobStatus` helper;
* the `POST /api/auth/signup` route;
* the new-job submit handler (app/dashboard/jobs/new/page.tsx): end-time
  computation from `air_time` and the parsed duration, and the
  all-or-single-toast handling of schedule-insert failures;
* the invoice PDF export (`downloadInvoicePDF`, `generateInvoiceNumber`)
  and the invoice-number generation in `InvoiceGenerator`.

Modelling conventions: clock times are naturals (seconds since midnight,
matching the zero-padded `HH:mm[:ss]` strings the code compares
lexicographically — on well-formed zero-padded strings the lexicographic
order agrees with the numeric order); dates are naturals (day numbers),
so the end timestamp `parseISO(scheduled_date + 'T' + end_time)` of a
schedule is the lexicographic pair (date, time), compared by `tsLtB`.
Database tables are lists of rows; an `update ... eq('id', x)` is a map
that rewrites every row whose id is `x`.  Fallible backend calls take an
explicit error oracle.
-/

namespace RadioRevenue

/-- Job statuses: 'scheduled' | 'in_progress' | 'completed' | 'cancelled'. -/
inductive JStatus where
  | scheduled
  | in_progress
  | completed
  | cancelled
deriving DecidableEq

/-- Schedule statuses: 'upcoming' | 'live' | 'completed' | 'cancelled'. -/
inductive SStatus where
  | upcoming
  | live
  | completed
  | cancelled
deriving DecidableEq

/-- A row of the `jobs` table (the fields the sync pass reads/writes). -/
structure Job where
  id : String
  status : JStatus
deriving DecidableEq

/-- A row of the `schedules` table (the fields the sync pass reads/writes).
`start_time`/`end_time` are seconds since midnight, `scheduled_date` a day
number. -/
structure Sched where
  id : String
  job_id : String
  scheduled_date : Nat
  start_time : Nat
  end_time : Nat
  status : SStatus
deriving DecidableEq

/-- The database state the sync pass touches. -/
structure DB where
  jobs : List Job
  schedules : List Sched
deriving DecidableEq

/-- The wall clock at the moment of one pass: `today = format(now,'yyyy-MM-dd')`,
`time = format(now,'HH:mm:ss')`, as day number and seconds. -/
structure Clock where
  today : Nat
  time : Nat
deriving DecidableEq

/-- The comparison `isBefore(parseISO(d + 'T' + t), parseISO(d2 + 'T' + t2))`: strict
lexicographic comparison of (date, time) pairs. -/
def tsLtB (d t d2 t2 : Nat) : Bool :=
  d < d2 || (d == d2 && t < t2)

/-- The fetch `from('schedules').select(..., job:jobs(id,status)).neq('status','cancelled')`:
all schedules whose status is not cancelled.  (The `order('scheduled_date')`
clause only affects the iteration order of the disjoint per-job groups and
the tie order among schedules with equal end timestamps, neither of which
is observable in the final state; the model keeps table order.) -/
def fetched (db : DB) : List Sched :=
  db.schedules.filter (fun s => !(s.status == SStatus.cancelled))

/-- The group `jobSchedules[j]` built by the reduce over the fetched rows:
the fetched schedules whose `job_id` is `j`. -/
def groupOf (db : DB) (j : String) : List Sched :=
  (fetched db).filter (fun s => s.job_id == j)

/-- First-occurrence deduplication, the key order of a JS object built by
insertion (`Object.entries(jobSchedules)`). -/
def firstOccsAux (seen : List String) : List String → List String
  | [] => []
  | x :: xs =>
    if x ∈ seen then firstOccsAux seen xs
    else x :: firstOccsAux (x :: seen) xs

/-- The keys of `jobSchedules` in insertion order: each distinct `job_id`
of a fetched schedule, once. -/
def jobIds (db : DB) : List String :=
  firstOccsAux [] ((fetched db).map (fun s => s.job_id))

/-- One comparison step of the descending sort by end timestamp: keep the
schedule with the later (date, end_time), preferring the earlier-listed one
on ties (JS `Array.sort` is stable). -/
def pickLater (a b : Sched) : Sched :=
  if tsLtB a.scheduled_date a.end_time b.scheduled_date b.end_time then b else a

/-- The pick `sortedSchedules[0]`: the schedule of the group with the greatest end
timestamp (first among equals). -/
def latestSchedule : List Sched → Option Sched
  | [] => none
  | s :: rest => some (rest.foldl pickLater s)

/-- The lookup `jobs.find(row => row.id = j)`: the job row the fetch joins onto a
schedule via its `job_id` (none models a null join). -/
def findJob (db : DB) (j : String) : Option Job :=
  db.jobs.find? (fun jb => jb.id == j)

/-- The schedule row with id `i` (the target of `eq('id', i)` updates). -/
def findSched (db : DB) (i : String) : Option Sched :=
  db.schedules.find? (fun s => s.id == i)

/-- The decision the loop body takes for the group of job `j` (lines 44–57
and the two branch conditions, route.ts lines 58 and 87–92): the new job
status, the id of the latest schedule, and its new status — or none if the
group is empty, the join is null, or neither branch fires. -/
def syncDecision (c : Clock) (db : DB) (j : String) :
    Option (JStatus × String × SStatus) :=
  match latestSchedule (groupOf db j) with
  | none => none
  | some latest =>
    match findJob db j with
    | none => none
    | some jb =>
      if tsLtB latest.scheduled_date latest.end_time c.today c.time
          ∧ jb.status ≠ JStatus.completed then
        some (JStatus.completed, latest.id, SStatus.completed)
      else if latest.scheduled_date = c.today ∧ latest.start_time ≤ c.time
          ∧ c.time < latest.end_time ∧ jb.status ≠ JStatus.in_progress then
        some (JStatus.in_progress, latest.id, SStatus.live)
      else
        none

/-- The write `from('jobs').update({status}).eq('id', j)`. -/
def dbUpdateJob (db : DB) (j : String) (st : JStatus) : DB :=
  { db with jobs := db.jobs.map (fun jb => if jb.id = j then { jb with status := st } else jb) }

/-- The write `from('schedules').update({status}).eq('id', i)`. -/
def dbUpdateSchedule (db : DB) (i : String) (st : SStatus) : DB :=
  { db with schedules := db.schedules.map (fun s => if s.id = i then { s with status := st } else s) }

/-- One iteration of the `for (const [jobId, ...] of Object.entries(...))`
loop: decisions are computed from the fetched snapshot `db0`, writes are
applied to the evolving state `acc`.  `jobErr j = true` models the job
update failing (the code logs and `continue`s, skipping the schedule
write); `schedErr j = true` models the schedule update failing (the code
only logs, keeping the job write). -/
def syncStep (c : Clock) (db0 : DB) (jobErr schedErr : String → Bool)
    (acc : DB) (j : String) : DB :=
  match syncDecision c db0 j with
  | none => acc
  | some (js, sid, ss) =>
    if jobErr j then acc
    else
      let acc1 := dbUpdateJob acc j js
      if schedErr j then acc1
      else dbUpdateSchedule acc1 sid ss

/-- The whole loop of one sync pass, with per-row error oracles. -/
def syncPassE (c : Clock) (jobErr schedErr : String → Bool) (db : DB) : DB :=
  (jobIds db).foldl (syncStep c db jobErr schedErr) db

/-- The oracle of a pass in which no update errors. -/
def noErr : String → Bool := fun _ => false

/-- One error-free status-sync pass (the body of `GET`). -/
def syncPass (c : Clock) (db : DB) : DB :=
  syncPassE c noErr noErr db

/-- The JSON body and HTTP status the cron route responds with. -/
structure CronResponse where
  status : Nat
  success : Bool
  message : Option String
  error : Option String
deriving DecidableEq

/-- The route `GET /api/cron/update-job-status`: if the schedules fetch fails the
catch block answers 500 with `success: false` and no state was touched;
otherwise the pass runs (per-row errors only logged) and the route answers
200 with `success: true`. -/
def cronGET (fetchFails : Bool) (c : Clock) (jobErr schedErr : String → Bool)
    (db : DB) : DB × CronResponse :=
  if fetchFails then
    (db, { status := 500, success := false, message := none,
           error := some "Failed to update job statuses" })
  else
    (syncPassE c jobErr schedErr db,
     { status := 200, success := true,
       message := some "Job statuses updated successfully", error := none })

/-- The manual updateJobStatus(jobId, scheduleId, status) helper
(lib, lines 3–32): job row first, then schedule row; each write may fail
(`jobFails`, `schedFails`); a failure throws, leaving the state reached so
far (carried on the `error` side). -/
def updateJobStatus (db : DB) (jobId scheduleId : String) (status : JStatus)
    (jobFails schedFails : Bool) : Except DB DB :=
  if jobFails then Except.error db
  else
    let db1 := dbUpdateJob db jobId status
    if schedFails then Except.error db1
    else Except.ok (dbUpdateSchedule db1 scheduleId
      (if status = JStatus.completed then SStatus.completed else SStatus.live))

/-! ## POST /api/auth/signup (app/api/auth/signup/route.ts) -/

/-- A row of the `users` table as the signup route inserts it. -/
structure UserRow where
  id : String
  email : String
  name : String
  role : String
  created_at : String
deriving DecidableEq

/-- The fields the route destructures from `request.json()`. -/
structure SignupBody where
  id : String
  email : String
  name : String
  role : String
deriving DecidableEq

/-- The JSON body and HTTP status the signup route responds with. -/
structure SignupResponse where
  status : Nat
  data : Option UserRow
  error : Option String
deriving DecidableEq

/-- The route `POST /api/auth/signup`: body parse failure (or any other
exception, `body = none`) answers 500; a rejected insert (`insertErr =
some msg`) answers 400 with the backend's message and inserts nothing;
otherwise exactly one row with the given fields plus `created_at = nowIso`
is appended and returned with the default 200 status. -/
def signupPOST (users : List UserRow) (body : Option SignupBody)
    (nowIso : String) (insertErr : Option String) :
    List UserRow × SignupResponse :=
  match body with
  | none => (users, { status := 500, data := none, error := some "Internal server error" })
  | some b =>
    match insertErr with
    | some msg => (users, { status := 400, data := none, error := some msg })
    | none =>
      let row : UserRow :=
        { id := b.id, email := b.email, name := b.name, role := b.role, created_at := nowIso }
      (users ++ [row], { status := 200, data := some row, error := none })

/-! ## New-job submit handler (app/dashboard/jobs/new/page.tsx) -/

/-- The unit captured by the duration regex `/(\d+)\s*(min|sec)/i`. -/
inductive DurUnit where
  | min
  | sec
deriving DecidableEq

/-- Minutes added to the start time for a parsed duration: `amount` for
minutes, `Math.ceil(amount / 60)` for seconds (lines 78–82). -/
def durMinutes (a : Nat) : DurUnit → Nat
  | DurUnit.min => a
  | DurUnit.sec => (a + 59) / 60

/-- The end-time computation of `handleSubmit` (lines 70–94): add the
parsed duration to the start minute, carry minute overflow into the hour,
then reduce the hour modulo 24.  `dur = none` models a duration string the
regex does not match (end = start). -/
def computeEndTime (startHour startMinute : Nat) (dur : Option (Nat × DurUnit)) :
    Nat × Nat :=
  match dur with
  | none => (startHour, startMinute)
  | some (a, u) =>
    let endMinute0 := startMinute + durMinutes a u
    let endHour1 := if endMinute0 ≥ 60 then startHour + endMinute0 / 60 else startHour
    let endMinute1 := if endMinute0 ≥ 60 then endMinute0 % 60 else endMinute0
    let endHour2 := if endHour1 ≥ 24 then endHour1 % 24 else endHour1
    (endHour2, endMinute1)

/-- The observable outcome of the schedule-creation part of `handleSubmit`
(lines 66–128), after `createJob` succeeded. -/
structure SubmitOutcome where
  jobCreated : Bool
  scheduleAttempts : List String
  schedulesCreated : List String
  errorToasts : List String
  successToast : Bool
  redirectedTo : String
deriving DecidableEq

/-- Schedule creation in `handleSubmit`: one `createSchedule` call per
selected date (eagerly, via `.map` before `Promise.all`), `failDate d =
true` modelling a rejected insert for date `d`.  If any insert fails the
single catch around `Promise.all` emits one aggregate error toast and
returns; no failed insert is retried and the created job is kept. -/
def newJobSubmit (dates : List String) (failDate : String → Bool) : SubmitOutcome :=
  if dates.isEmpty then
    { jobCreated := true, scheduleAttempts := [], schedulesCreated := [],
      errorToasts := [], successToast := true, redirectedTo := "/dashboard/jobs" }
  else
    let created := dates.filter (fun d => !(failDate d))
    if dates.any failDate then
      { jobCreated := true, scheduleAttempts := dates, schedulesCreated := created,
        errorToasts := ["Job created but some schedules failed to create"],
        successToast := false, redirectedTo := "/dashboard/jobs" }
    else
      { jobCreated := true, scheduleAttempts := dates, schedulesCreated := created,
        errorToasts := [], successToast := true, redirectedTo := "/dashboard/jobs" }

/-! ## Invoice PDF export (lib pdf helper) and InvoiceGenerator -/

/-- An `invoice_items` row as the PDF export reads it (`amount` nullable;
exact arithmetic stands in for JS numbers). -/
structure InvItemRow where
  jobTitle : String
  amount : Option ℚ
deriving DecidableEq

/-- An invoice as stored, including the fields (`invoice_number`,
`total_amount`) that the PDF export does not read. -/
structure InvoiceRow where
  id : String
  invoice_number : String
  total_amount : ℚ
  items : List InvItemRow
deriving DecidableEq

/-- The running total of the line-item loop in `downloadInvoicePDF`
(lines 141–154): `total += item.amount || 0`. -/
def pdfTotal (inv : InvoiceRow) : ℚ :=
  inv.items.foldl (fun t it => t + it.amount.getD 0) 0

/-- The slice `id.slice(-6)`: the last six characters, or the whole string
when it is shorter. -/
def sliceLast6 (s : String) : List Char :=
  s.data.drop (s.data.length - 6)

/-- The pad `padStart(6, '0')`. -/
def padStart6 (l : List Char) : List Char :=
  List.replicate (6 - l.length) '0' ++ l

/-- The helper `generateInvoiceNumber(id)` of the PDF export (lines 65–69):
`INV` + the last six characters of the id, zero-padded to six. -/
def generateInvoiceNumber (id : String) : String :=
  String.mk ('I' :: 'N' :: 'V' :: padStart6 (sliceLast6 id))

/-- The invoice number printed on the PDF (line 94). -/
def pdfInvoiceNumber (inv : InvoiceRow) : String :=
  generateInvoiceNumber inv.id

/-- The stored invoice number `InvoiceGenerator.handleSubmit` generates
(line 47): the string INV- followed by `Date.now()`. -/
def invoiceNumberFromTimestamp (ts : Nat) : String :=
  "INV-" ++ toString ts

/-- One job with two schedules: `s1` airs today 09:00–09:05, `s2` airs the
same slot tomorrow, so `s2` is the group's latest schedule. -/
def dbTwoSchedules : DB :=
  { jobs := [{ id := "j", status := JStatus.scheduled }],
    schedules := [{ id := "s1", job_id := "j", scheduled_date := 0,
                    start_time := 32400, end_time := 32700, status := SStatus.upcoming },
                  { id := "s2", job_id := "j", scheduled_date := 1,
                    start_time := 32400, end_time := 32700, status := SStatus.upcoming }] }

/-- One job with a single schedule airing today 09:00–09:05 (the spec's
worked example). -/
def dbOneSchedule : DB :=
  { jobs := [{ id := "j", status := JStatus.scheduled }],
    schedules := [{ id := "s", job_id := "j", scheduled_date := 0,
                    start_time := 32400, end_time := 32700, status := SStatus.upcoming }] }

/-- A database holding one cancelled past schedule next to the worked
example's job. -/
def dbWithCancelled : DB :=
  { jobs := [{ id := "j", status := JStatus.scheduled }],
    schedules := [{ id := "s", job_id := "j", scheduled_date := 0,
                    start_time := 32400, end_time := 32700, status := SStatus.upcoming },
                  { id := "sc", job_id := "j", scheduled_date := 0,
                    start_time := 0, end_time := 60, status := SStatus.cancelled }] }

/-- The relation the sync pass induces between a schedules table and its
updated version, row by row: every field except `status` is preserved, a
cancelled row is preserved entirely, and no row becomes cancelled. -/
def SchRel (s t : Sched) : Prop :=
  t.id = s.id ∧ t.job_id = s.job_id ∧ t.scheduled_date = s.scheduled_date ∧
  t.start_time = s.start_time ∧ t.end_time = s.end_time ∧
  (s.status = SStatus.cancelled → t = s) ∧
  (t.status = SStatus.cancelled → s.status = SStatus.cancelled)

/-! ## Helper lemmas -/

theorem find?_map_eq {α : Type} (p : α → Bool) (f : α → α) (l : List α)
    (hp : ∀ x, p (f x) = p x) :
    (l.map f).find? p = (l.find? p).map f := by
  induction l with
  | nil => rfl
  | cons a l ih =>
    by_cases h : p a = true
    · rw [List.map_cons, List.find?_cons_of_pos _ (by rw [hp]; exact h),
        List.find?_cons_of_pos _ h]
      rfl
    · rw [List.map_cons, List.find?_cons_of_neg _ (by rw [hp]; simpa using h),
        List.find?_cons_of_neg _ (by simpa using h), ih]

theorem dbUpdateJob_schedules (db : DB) (j : String) (st : JStatus) :
    (dbUpdateJob db j st).schedules = db.schedules := rfl

theorem dbUpdateSchedule_jobs (db : DB) (i : String) (st : SStatus) :
    (dbUpdateSchedule db i st).jobs = db.jobs := rfl

theorem findJob_dbUpdateJob_self (db : DB) (j : String) (st : JStatus) :
    findJob (dbUpdateJob db j st) j =
      (findJob db j).map (fun jb => { jb with status := st }) := by
  unfold findJob dbUpdateJob
  rw [find?_map_eq _ _ _ (fun x => by by_cases hx : x.id = j <;> simp [hx])]
  cases hf : db.jobs.find? (fun jb => jb.id == j) with
  | none => rfl
  | some jb =>
    have hid : jb.id = j := by simpa using List.find?_some hf
    simp [hid]

theorem findJob_dbUpdateJob_ne (db : DB) (j j' : String) (st : JStatus)
    (h : j' ≠ j) :
    findJob (dbUpdateJob db j st) j' = findJob db j' := by
  unfold findJob dbUpdateJob
  rw [find?_map_eq _ _ _ (fun x => by by_cases hx : x.id = j <;> simp [hx])]
  cases hf : db.jobs.find? (fun jb => jb.id == j') with
  | none => rfl
  | some jb =>
    have hid : jb.id = j' := by simpa using List.find?_some hf
    simp [hid, h]

theorem findSched_dbUpdateSchedule_self (db : DB) (i : String) (st : SStatus) :
    findSched (dbUpdateSchedule db i st) i =
      (findSched db i).map (fun s => { s with status := st }) := by
  unfold findSched dbUpdateSchedule
  rw [find?_map_eq _ _ _ (fun x => by by_cases hx : x.id = i <;> simp [hx])]
  cases hf : db.schedules.find? (fun s => s.id == i) with
  | none => rfl
  | some s =>
    have hid : s.id = i := by simpa using List.find?_some hf
    simp [hid]

theorem findSched_dbUpdateSchedule_ne (db : DB) (i i' : String) (st : SStatus)
    (h : i' ≠ i) :
    findSched (dbUpdateSchedule db i st) i' = findSched db i' := by
  unfold findSched dbUpdateSchedule
  rw [find?_map_eq _ _ _ (fun x => by by_cases hx : x.id = i <;> simp [hx])]
  cases hf : db.schedules.find? (fun s => s.id == i') with
  | none => rfl
  | some s =>
    have hid : s.id = i' := by simpa using List.find?_some hf
    simp [hid, h]

theorem findJob_dbUpdateSchedule (db : DB) (i : String) (st : SStatus) (j : String) :
    findJob (dbUpdateSchedule db i st) j = findJob db j := rfl

theorem findSched_dbUpdateJob (db : DB) (j : String) (st : JStatus) (i : String) :
    findSched (dbUpdateJob db j st) i = findSched db i := rfl

theorem mem_firstOccsAux (l : List String) (a : String) :
    ∀ seen, a ∈ firstOccsAux seen l ↔ a ∈ l ∧ a ∉ seen := by
  induction l with
  | nil => intro seen; simp [firstOccsAux]
  | cons x xs ih =>
    intro seen
    by_cases hx : x ∈ seen
    · rw [firstOccsAux, if_pos hx, ih]
      constructor
      · rintro ⟨h1, h2⟩
        exact ⟨List.mem_cons_of_mem _ h1, h2⟩
      · rintro ⟨h1, h2⟩
        rcases List.mem_cons.mp h1 with h1 | h1
        · exact absurd (h1 ▸ hx) h2
        · exact ⟨h1, h2⟩
    · rw [firstOccsAux, if_neg hx]
      constructor
      · intro h
        rcases List.mem_cons.mp h with h | h
        · subst h
          exact ⟨List.mem_cons_self _ _, hx⟩
        · rcases (ih _).mp h with ⟨h1, h2⟩
          exact ⟨List.mem_cons_of_mem _ h1, fun hs => h2 (List.mem_cons_of_mem _ hs)⟩
      · rintro ⟨h1, h2⟩
        by_cases hax : a = x
        · subst hax
          exact List.mem_cons_self _ _
        · rcases List.mem_cons.mp h1 with h | h
          · exact absurd h hax
          · exact List.mem_cons_of_mem _
              ((ih _).mpr ⟨h, fun hs => (List.mem_cons.mp hs).elim hax h2⟩)

theorem firstOccsAux_nodup (l : List String) :
    ∀ seen, (firstOccsAux seen l).Nodup := by
  induction l with
  | nil => intro seen; simp [firstOccsAux]
  | cons x xs ih =>
    intro seen
    by_cases hx : x ∈ seen
    · rw [firstOccsAux, if_pos hx]
      exact ih seen
    · rw [firstOccsAux, if_neg hx]
      refine List.nodup_cons.mpr ⟨?_, ih _⟩
      intro hmem
      exact ((mem_firstOccsAux xs x _).mp hmem).2 (List.mem_cons_self x seen)

theorem jobIds_nodup (db : DB) : (jobIds db).Nodup :=
  firstOccsAux_nodup _ []

theorem mem_groupOf (db : DB) (j : String) (s : Sched) (h : s ∈ groupOf db j) :
    s ∈ db.schedules ∧ s.status ≠ SStatus.cancelled ∧ s.job_id = j := by
  unfold groupOf fetched at h
  rcases List.mem_filter.mp h with ⟨h1, h2⟩
  rcases List.mem_filter.mp h1 with ⟨h3, h4⟩
  exact ⟨h3, by simpa using h4, by simpa using h2⟩

theorem mem_jobIds_of_group (db : DB) (j : String) (s : Sched)
    (h : s ∈ groupOf db j) : j ∈ jobIds db := by
  unfold jobIds
  rw [mem_firstOccsAux]
  refine ⟨?_, by simp⟩
  unfold groupOf at h
  rcases List.mem_filter.mp h with ⟨h1, h2⟩
  have hj : s.job_id = j := by simpa using h2
  exact hj ▸ List.mem_map_of_mem _ h1

theorem foldl_pickLater_mem (l : List Sched) (a : Sched) :
    l.foldl pickLater a = a ∨ l.foldl pickLater a ∈ l := by
  induction l generalizing a with
  | nil => exact Or.inl rfl
  | cons b l ih =>
    rw [List.foldl_cons]
    rcases ih (pickLater a b) with h | h
    · rw [h]
      unfold pickLater
      by_cases hc : tsLtB a.scheduled_date a.end_time b.scheduled_date b.end_time = true
      · rw [if_pos hc]
        exact Or.inr (List.mem_cons_self _ _)
      · rw [if_neg hc]
        exact Or.inl rfl
    · exact Or.inr (List.mem_cons_of_mem _ h)

theorem latestSchedule_mem (l : List Sched) (s : Sched)
    (h : latestSchedule l = some s) : s ∈ l := by
  cases l with
  | nil => cases h
  | cons a rest =>
    simp only [latestSchedule, Option.some_inj] at h
    rcases foldl_pickLater_mem rest a with h2 | h2
    · rw [h] at h2
      exact h2 ▸ List.mem_cons_self _ _
    · rw [h] at h2
      exact List.mem_cons_of_mem _ h2

theorem find?_eq_of_nodup_map (l : List Sched)
    (hnd : (l.map Sched.id).Nodup) (s : Sched) (hs : s ∈ l) :
    l.find? (fun t => t.id == s.id) = some s := by
  induction l with
  | nil => cases hs
  | cons a rest ih =>
    have hnd' : (a.id :: rest.map Sched.id).Nodup := by simpa using hnd
    rcases List.mem_cons.mp hs with h | h
    · subst h
      exact List.find?_cons_of_pos _ (by simp)
    · have ha : a.id ≠ s.id := by
        intro hh
        exact (List.nodup_cons.mp hnd').1 (hh ▸ List.mem_map_of_mem _ h)
      rw [List.find?_cons_of_neg _ (by simpa using ha)]
      exact ih (List.nodup_cons.mp hnd').2 h

theorem findSched_eq_of_nodup (db : DB)
    (hnd : (db.schedules.map Sched.id).Nodup) (s : Sched)
    (hs : s ∈ db.schedules) : findSched db s.id = some s :=
  find?_eq_of_nodup_map db.schedules hnd s hs

/-- Inversion of a fired sync decision: it names the latest schedule of the
group and the joined job row, targets exactly that schedule's id, and
records which branch fired. -/
theorem syncDecision_inv (c : Clock) (db : DB) (j : String)
    (js : JStatus) (sid : String) (ss : SStatus)
    (h : syncDecision c db j = some (js, sid, ss)) :
    ∃ latest jb, latestSchedule (groupOf db j) = some latest ∧
      findJob db j = some jb ∧ sid = latest.id ∧
      ((js = JStatus.completed ∧ ss = SStatus.completed ∧
        tsLtB latest.scheduled_date latest.end_time c.today c.time = true ∧
        jb.status ≠ JStatus.completed) ∨
       (js = JStatus.in_progress ∧ ss = SStatus.live ∧
        ¬(tsLtB latest.scheduled_date latest.end_time c.today c.time = true ∧
          jb.status ≠ JStatus.completed) ∧
        latest.scheduled_date = c.today ∧ latest.start_time ≤ c.time ∧
        c.time < latest.end_time ∧ jb.status ≠ JStatus.in_progress)) := by
  unfold syncDecision at h
  cases hl : latestSchedule (groupOf db j) with
  | none => rw [hl] at h; cases h
  | some latest =>
    rw [hl] at h
    cases hj : findJob db j with
    | none => rw [hj] at h; cases h
    | some jb =>
      rw [hj] at h
      dsimp only at h
      refine ⟨latest, jb, rfl, rfl, ?_⟩
      split_ifs at h with h1 h2
      · simp only [Option.some_inj, Prod.mk.injEq] at h
        obtain ⟨hjs, hsid, hss⟩ := h
        exact ⟨hsid.symm, Or.inl ⟨hjs.symm, hss.symm, h1.1, h1.2⟩⟩
      · simp only [Option.some_inj, Prod.mk.injEq] at h
        obtain ⟨hjs, hsid, hss⟩ := h
        exact ⟨hsid.symm, Or.inr ⟨hjs.symm, hss.symm, h1, h2.1, h2.2.1, h2.2.2.1, h2.2.2.2⟩⟩

theorem syncStep_none (c : Clock) (db0 : DB) (jE sE : String → Bool)
    (acc : DB) (j : String) (hd : syncDecision c db0 j = none) :
    syncStep c db0 jE sE acc j = acc := by
  unfold syncStep
  rw [hd]

theorem syncStep_findJob_ne (c : Clock) (db0 : DB) (jE sE : String → Bool)
    (acc : DB) (x j : String) (h : j ≠ x) :
    findJob (syncStep c db0 jE sE acc x) j = findJob acc j := by
  unfold syncStep
  cases hd : syncDecision c db0 x with
  | none => rfl
  | some u =>
    obtain ⟨js, sid, ss⟩ := u
    by_cases hje : jE x = true
    · simp [hje]
    · by_cases hse : sE x = true
      · simp [hje, hse, findJob_dbUpdateJob_ne _ _ _ _ h]
      · simp [hje, hse, findJob_dbUpdateSchedule, findJob_dbUpdateJob_ne _ _ _ _ h]

theorem syncStep_findJob_self (c : Clock) (db0 : DB) (sE : String → Bool)
    (acc : DB) (j : String) (js : JStatus) (sid : String) (ss : SStatus)
    (hd : syncDecision c db0 j = some (js, sid, ss)) :
    findJob (syncStep c db0 noErr sE acc j) j =
      (findJob acc j).map (fun jb => { jb with status := js }) := by
  unfold syncStep
  rw [hd]
  by_cases hse : sE j = true <;>
    simp [noErr, hse, findJob_dbUpdateSchedule, findJob_dbUpdateJob_self]

theorem syncStep_findSched_other (c : Clock) (db0 : DB) (jE sE : String → Bool)
    (acc : DB) (x i : String)
    (hother : ∀ js sid ss, syncDecision c db0 x = some (js, sid, ss) → sid ≠ i) :
    findSched (syncStep c db0 jE sE acc x) i = findSched acc i := by
  unfold syncStep
  cases hd : syncDecision c db0 x with
  | none => rfl
  | some u =>
    obtain ⟨js, sid, ss⟩ := u
    have hne : i ≠ sid := Ne.symm (hother js sid ss hd)
    by_cases hje : jE x = true
    · simp [hje]
    · by_cases hse : sE x = true
      · simp [hje, hse, findSched_dbUpdateJob]
      · simp [hje, hse, findSched_dbUpdateJob, findSched_dbUpdateSchedule_ne _ _ _ _ hne]

theorem syncStep_findSched_self (c : Clock) (db0 : DB) (acc : DB) (j : String)
    (js : JStatus) (sid : String) (ss : SStatus)
    (hd : syncDecision c db0 j = some (js, sid, ss)) :
    findSched (syncStep c db0 noErr noErr acc j) sid =
      (findSched acc sid).map (fun s => { s with status := ss }) := by
  unfold syncStep
  rw [hd]
  simp [noErr, findSched_dbUpdateJob, findSched_dbUpdateSchedule_self]

theorem foldl_syncStep_id (c : Clock) (db0 : DB) (jE sE : String → Bool)
    (ids : List String) (acc : DB)
    (h : ∀ j ∈ ids, syncDecision c db0 j = none) :
    List.foldl (syncStep c db0 jE sE) acc ids = acc := by
  induction ids generalizing acc with
  | nil => rfl
  | cons x rest ih =>
    rw [List.foldl_cons, syncStep_none _ _ _ _ _ _ (h x (List.mem_cons_self _ _))]
    exact ih acc (fun j hj => h j (List.mem_cons_of_mem _ hj))

theorem foldl_syncStep_findJob_notmem (c : Clock) (db0 : DB)
    (jE sE : String → Bool) (ids : List String) (j : String) (hj : j ∉ ids)
    (acc : DB) :
    findJob (List.foldl (syncStep c db0 jE sE) acc ids) j = findJob acc j := by
  induction ids generalizing acc with
  | nil => rfl
  | cons x rest ih =>
    have hx : j ≠ x := fun h => hj (h ▸ List.mem_cons_self x rest)
    rw [List.foldl_cons, ih (fun h => hj (List.mem_cons_of_mem _ h)) _,
      syncStep_findJob_ne _ _ _ _ _ _ _ hx]

theorem foldl_syncStep_findJob_nonedec (c : Clock) (db0 : DB)
    (jE sE : String → Bool) (ids : List String) (j : String)
    (hd : syncDecision c db0 j = none) (acc : DB) :
    findJob (List.foldl (syncStep c db0 jE sE) acc ids) j = findJob acc j := by
  induction ids generalizing acc with
  | nil => rfl
  | cons x rest ih =>
    rw [List.foldl_cons, ih]
    by_cases hx : x = j
    · subst hx
      rw [syncStep_none _ _ _ _ _ _ hd]
    · exact syncStep_findJob_ne _ _ _ _ _ _ _ (fun h => hx h.symm)

theorem foldl_syncStep_findJob_mem (c : Clock) (db0 : DB) (ids : List String)
    (hnd : ids.Nodup) (j : String) (hj : j ∈ ids)
    (js : JStatus) (sid : String) (ss : SStatus)
    (hd : syncDecision c db0 j = some (js, sid, ss)) (acc : DB) :
    findJob (List.foldl (syncStep c db0 noErr noErr) acc ids) j =
      (findJob acc j).map (fun jb => { jb with status := js }) := by
  induction ids generalizing acc with
  | nil => cases hj
  | cons x rest ih =>
    rw [List.foldl_cons]
    rcases List.mem_cons.mp hj with hx | hx
    · subst hx
      rw [foldl_syncStep_findJob_notmem _ _ _ _ _ _ (List.nodup_cons.mp hnd).1 _,
        syncStep_findJob_self _ _ _ _ _ _ _ _ hd]
    · have hne : j ≠ x := fun hh => (List.nodup_cons.mp hnd).1 (hh ▸ hx)
      rw [ih (List.nodup_cons.mp hnd).2 hx, syncStep_findJob_ne _ _ _ _ _ _ _ hne]

theorem foldl_syncStep_findSched_other (c : Clock) (db0 : DB)
    (jE sE : String → Bool) (ids : List String) (i : String)
    (h : ∀ j ∈ ids, ∀ js sid ss, syncDecision c db0 j = some (js, sid, ss) → sid ≠ i)
    (acc : DB) :
    findSched (List.foldl (syncStep c db0 jE sE) acc ids) i = findSched acc i := by
  induction ids generalizing acc with
  | nil => rfl
  | cons x rest ih =>
    rw [List.foldl_cons, ih (fun j hj => h j (List.mem_cons_of_mem _ hj)) _,
      syncStep_findSched_other _ _ _ _ _ _ _ (h x (List.mem_cons_self _ _))]

theorem foldl_syncStep_findSched_mem (c : Clock) (db0 : DB) (ids : List String)
    (hnd : ids.Nodup) (j : String) (hj : j ∈ ids)
    (js : JStatus) (sid : String) (ss : SStatus)
    (hd : syncDecision c db0 j = some (js, sid, ss))
    (hother : ∀ j' ∈ ids, j' ≠ j → ∀ js' sid' ss',
      syncDecision c db0 j' = some (js', sid', ss') → sid' ≠ sid)
    (acc : DB) :
    findSched (List.foldl (syncStep c db0 noErr noErr) acc ids) sid =
      (findSched acc sid).map (fun s => { s with status := ss }) := by
  induction ids generalizing acc with
  | nil => cases hj
  | cons x rest ih =>
    rw [List.foldl_cons]
    rcases List.mem_cons.mp hj with hx | hx
    · subst hx
      rw [foldl_syncStep_findSched_other _ _ _ _ _ _ ?_ _,
        syncStep_findSched_self _ _ _ _ _ _ _ hd]
      intro j' hj' js' sid' ss' hd'
      have hne : j' ≠ j := fun hh => (List.nodup_cons.mp hnd).1 (hh ▸ hj')
      exact hother j' (List.mem_cons_of_mem _ hj') hne js' sid' ss' hd'
    · have hne : j ≠ x := fun hh => (List.nodup_cons.mp hnd).1 (hh ▸ hx)
      rw [ih (List.nodup_cons.mp hnd).2 hx
        (fun j' hj' hne' => hother j' (List.mem_cons_of_mem _ hj') hne') _,
        syncStep_findSched_other _ _ _ _ _ _ _
          (fun js' sid' ss' hd' => hother x (List.mem_cons_self _ _) (fun hh => hne hh.symm) js' sid' ss' hd')]

/-- With unique schedule ids, the decision of another job's group never
targets the latest schedule of this group: each group's latest belongs to
that group, and groups are keyed by distinct `job_id`s. -/
theorem syncDecision_target_ne (c : Clock) (db : DB)
    (hnd : (db.schedules.map Sched.id).Nodup)
    (j j' : String) (hne : j' ≠ j) (L : Sched)
    (hL : latestSchedule (groupOf db j) = some L)
    (js' : JStatus) (sid' : String) (ss' : SStatus)
    (hd' : syncDecision c db j' = some (js', sid', ss')) : sid' ≠ L.id := by
  obtain ⟨L', jb', hL', hjb', hsid', -⟩ := syncDecision_inv _ _ _ _ _ _ hd'
  subst hsid'
  have hmemL : L ∈ groupOf db j := latestSchedule_mem _ _ hL
  have hmemL' : L' ∈ groupOf db j' := latestSchedule_mem _ _ hL'
  obtain ⟨hLs, -, hLj⟩ := mem_groupOf _ _ _ hmemL
  obtain ⟨hLs', -, hLj'⟩ := mem_groupOf _ _ _ hmemL'
  intro h
  have hLL : L' = L := List.inj_on_of_nodup_map hnd hLs' hLs h
  rw [hLL, hLj] at hLj'
  exact hne hLj'.symm

/-- C1 (amended): for the latest schedule of a job's group, with its end
timestamp in the past and the joined job not completed, one pass marks job
and that schedule completed. -/
theorem cron_marks_past_latest_schedule_completed (c : Clock) (db : DB)
    (j : String) (jb : Job) (L : Sched)
    (hnd : (db.schedules.map Sched.id).Nodup)
    (hjb : findJob db j = some jb)
    (hL : latestSchedule (groupOf db j) = some L)
    (hpast : tsLtB L.scheduled_date L.end_time c.today c.time = true)
    (hnc : jb.status ≠ JStatus.completed) :
    findJob (syncPass c db) j = some { jb with status := JStatus.completed } ∧
    findSched (syncPass c db) L.id = some { L with status := SStatus.completed } := by
  have hdec : syncDecision c db j = some (JStatus.completed, L.id, SStatus.completed) := by
    unfold syncDecision
    rw [hL, hjb]
    dsimp only
    rw [if_pos ⟨hpast, hnc⟩]
  have hmemL : L ∈ groupOf db j := latestSchedule_mem _ _ hL
  have hjmem : j ∈ jobIds db := mem_jobIds_of_group _ _ _ hmemL
  have hLs : L ∈ db.schedules := (mem_groupOf _ _ _ hmemL).1
  constructor
  · rw [syncPass, syncPassE,
      foldl_syncStep_findJob_mem c db _ (jobIds_nodup db) j hjmem _ _ _ hdec db, hjb]
    rfl
  · rw [syncPass, syncPassE,
      foldl_syncStep_findSched_mem c db _ (jobIds_nodup db) j hjmem _ _ _ hdec
        (fun j' hj' hne js' sid' ss' hd' =>
          syncDecision_target_ne c db hnd j j' hne L hL js' sid' ss' hd') db,
      findSched_eq_of_nodup db hnd L hLs]
    rfl

/-- C2 (amended): for the latest schedule of a job's group, scheduled
today and currently inside its half-open window, with the joined job not
in_progress, one pass marks the job in_progress and that schedule live. -/
theorem cron_marks_running_latest_schedule_live (c : Clock) (db : DB)
    (j : String) (jb : Job) (L : Sched)
    (hnd : (db.schedules.map Sched.id).Nodup)
    (hjb : findJob db j = some jb)
    (hL : latestSchedule (groupOf db j) = some L)
    (htoday : L.scheduled_date = c.today)
    (hstart : L.start_time ≤ c.time)
    (hend : c.time < L.end_time)
    (hnp : jb.status ≠ JStatus.in_progress) :
    findJob (syncPass c db) j = some { jb with status := JStatus.in_progress } ∧
    findSched (syncPass c db) L.id = some { L with status := SStatus.live } := by
  have hnotpast : ¬(tsLtB L.scheduled_date L.end_time c.today c.time = true ∧
      jb.status ≠ JStatus.completed) := by
    rintro ⟨hp, -⟩
    rw [htoday] at hp
    simp [tsLtB] at hp
    omega
  have hdec : syncDecision c db j = some (JStatus.in_progress, L.id, SStatus.live) := by
    unfold syncDecision
    rw [hL, hjb]
    dsimp only
    rw [if_neg hnotpast, if_pos ⟨htoday, hstart, hend, hnp⟩]
  have hmemL : L ∈ groupOf db j := latestSchedule_mem _ _ hL
  have hjmem : j ∈ jobIds db := mem_jobIds_of_group _ _ _ hmemL
  have hLs : L ∈ db.schedules := (mem_groupOf _ _ _ hmemL).1
  constructor
  · rw [syncPass, syncPassE,
      foldl_syncStep_findJob_mem c db _ (jobIds_nodup db) j hjmem _ _ _ hdec db, hjb]
    rfl
  · rw [syncPass, syncPassE,
      foldl_syncStep_findSched_mem c db _ (jobIds_nodup db) j hjmem _ _ _ hdec
        (fun j' hj' hne js' sid' ss' hd' =>
          syncDecision_target_ne c db hnd j j' hne L hL js' sid' ss' hd') db,
      findSched_eq_of_nodup db hnd L hLs]
    rfl

/-- C1 counterexample: schedule `s1` has its end timestamp (today 09:05)
strictly before now (today 09:10) and status upcoming — not completed or
cancelled — yet the pass changes nothing: its sibling `s2` is the group's
latest schedule and is still in the future, so neither branch fires; `s1`
stays upcoming and the job stays scheduled, against the claim that both
become completed. -/
theorem cron_past_schedule_counterexample :
    tsLtB 0 32700 0 33000 = true ∧
    (findSched dbTwoSchedules "s1").map Sched.status = some SStatus.upcoming ∧
    syncPass { today := 0, time := 33000 } dbTwoSchedules = dbTwoSchedules ∧
    (findSched (syncPass { today := 0, time := 33000 } dbTwoSchedules) "s1").map Sched.status =
      some SStatus.upcoming ∧
    (findJob (syncPass { today := 0, time := 33000 } dbTwoSchedules) "j").map Job.status =
      some JStatus.scheduled := by
  decide

/-- C1 witness: the spec's worked example — a lone schedule today
09:00–09:05 evaluated at 09:10 ends with job and schedule completed. -/
theorem cron_marks_past_latest_schedule_completed_witness :
    findJob (syncPass { today := 0, time := 33000 } dbOneSchedule) "j" =
      some { id := "j", status := JStatus.completed } ∧
    findSched (syncPass { today := 0, time := 33000 } dbOneSchedule) "s" =
      some { id := "s", job_id := "j", scheduled_date := 0,
             start_time := 32400, end_time := 32700, status := SStatus.completed } :=
  cron_marks_past_latest_schedule_completed { today := 0, time := 33000 } dbOneSchedule "j"
    { id := "j", status := JStatus.scheduled }
    { id := "s", job_id := "j", scheduled_date := 0,
      start_time := 32400, end_time := 32700, status := SStatus.upcoming }
    (by decide) (by decide) (by decide) (by decide) (by decide)

/-- C2 counterexample: schedule `s1` is scheduled today with
09:00 ≤ 09:02 < 09:05 and the job is not in_progress, yet the pass changes
nothing: the group's latest schedule is tomorrow's `s2`, which is neither
past nor running today, so neither branch fires; the job stays scheduled
and `s1` stays upcoming, against the claim that they become in_progress
and live. -/
theorem cron_running_schedule_counterexample :
    ((0 : Nat) = 0 ∧ 32400 ≤ 32520 ∧ 32520 < 32700) ∧
    (findJob dbTwoSchedules "j").map Job.status = some JStatus.scheduled ∧
    syncPass { today := 0, time := 32520 } dbTwoSchedules = dbTwoSchedules ∧
    (findSched (syncPass { today := 0, time := 32520 } dbTwoSchedules) "s1").map Sched.status =
      some SStatus.upcoming ∧
    (findJob (syncPass { today := 0, time := 32520 } dbTwoSchedules) "j").map Job.status =
      some JStatus.scheduled := by
  decide

/-- C2 witness: the spec's worked example — a lone schedule today
09:00–09:05 evaluated at 09:02 ends with job in_progress and schedule
live. -/
theorem cron_marks_running_latest_schedule_live_witness :
    findJob (syncPass { today := 0, time := 32520 } dbOneSchedule) "j" =
      some { id := "j", status := JStatus.in_progress } ∧
    findSched (syncPass { today := 0, time := 32520 } dbOneSchedule) "s" =
      some { id := "s", job_id := "j", scheduled_date := 0,
             start_time := 32400, end_time := 32700, status := SStatus.live } :=
  cron_marks_running_latest_schedule_live { today := 0, time := 32520 } dbOneSchedule "j"
    { id := "j", status := JStatus.scheduled }
    { id := "s", job_id := "j", scheduled_date := 0,
      start_time := 32400, end_time := 32700, status := SStatus.upcoming }
    (by decide) (by decide) (by decide) (by decide) (by decide) (by decide) (by decide)

/-- C4: a cancelled schedule is excluded from the fetched working set of
the pass, and (with unique schedule ids) its row is bit-for-bit unchanged
by every run. -/
theorem cron_cancelled_schedule_untouched (c : Clock) (db : DB) (s : Sched)
    (hnd : (db.schedules.map Sched.id).Nodup)
    (hmem : s ∈ db.schedules)
    (hcs : s.status = SStatus.cancelled) :
    s ∉ fetched db ∧ findSched (syncPass c db) s.id = some s := by
  constructor
  · intro hin
    rcases List.mem_filter.mp hin with ⟨-, h2⟩
    simp [hcs] at h2
  · rw [syncPass, syncPassE, foldl_syncStep_findSched_other _ _ _ _ _ _ ?_ _]
    · exact find?_eq_of_nodup_map _ hnd s hmem
    · intro j hj js sid ss hdec
      obtain ⟨L, jb, hL, hjb, hsid, -⟩ := syncDecision_inv _ _ _ _ _ _ hdec
      subst hsid
      have hmemL := latestSchedule_mem _ _ hL
      obtain ⟨hLs, hLnc, -⟩ := mem_groupOf _ _ _ hmemL
      intro h
      have hLeq : L = s := List.inj_on_of_nodup_map hnd hLs hmem h
      rw [hLeq] at hLnc
      exact hLnc hcs

/-- C4 witness: the cancelled schedule `sc` is outside the working set and
survives a pass (run at 09:10, which does mark the sibling and the job
completed) unchanged. -/
theorem cron_cancelled_schedule_untouched_witness :
    { id := "sc", job_id := "j", scheduled_date := 0, start_time := 0,
      end_time := 60, status := SStatus.cancelled : Sched } ∉ fetched dbWithCancelled ∧
    findSched (syncPass { today := 0, time := 33000 } dbWithCancelled) "sc" =
      some { id := "sc", job_id := "j", scheduled_date := 0, start_time := 0,
             end_time := 60, status := SStatus.cancelled } :=
  cron_cancelled_schedule_untouched { today := 0, time := 33000 } dbWithCancelled
    { id := "sc", job_id := "j", scheduled_date := 0, start_time := 0,
      end_time := 60, status := SStatus.cancelled }
    (by decide) (by decide) (by decide)

/-- C5: the job write precedes the schedule write with nothing tying them
together: when the schedule write fails and the job write succeeded, the
job keeps its new status while the schedule keeps its old one, with no
rollback — in the manual `updateJobStatus` helper and in one cron sync
step alike. -/
theorem status_writes_not_atomic (db : DB) (jobId schedId : String)
    (st : JStatus) (c : Clock) (db0 acc : DB) (j : String) (js : JStatus)
    (sid : String) (ss : SStatus)
    (hd : syncDecision c db0 j = some (js, sid, ss)) :
    (updateJobStatus db jobId schedId st false true =
        Except.error (dbUpdateJob db jobId st) ∧
      (dbUpdateJob db jobId st).schedules = db.schedules ∧
      findJob (dbUpdateJob db jobId st) jobId =
        (findJob db jobId).map (fun jb => { jb with status := st })) ∧
    (syncStep c db0 noErr (fun _ => true) acc j = dbUpdateJob acc j js ∧
      (dbUpdateJob acc j js).schedules = acc.schedules ∧
      findJob (dbUpdateJob acc j js) j =
        (findJob acc j).map (fun jb => { jb with status := js })) := by
  refine ⟨⟨rfl, rfl, findJob_dbUpdateJob_self _ _ _⟩, ?_, rfl,
    findJob_dbUpdateJob_self _ _ _⟩
  unfold syncStep
  rw [hd]
  simp [noErr]

/-- C5 witness: the worked example at 09:10, with the schedule write
failing after the job write. -/
theorem status_writes_not_atomic_witness :
    (updateJobStatus dbOneSchedule "j" "s" JStatus.completed false true =
        Except.error (dbUpdateJob dbOneSchedule "j" JStatus.completed) ∧
      (dbUpdateJob dbOneSchedule "j" JStatus.completed).schedules = dbOneSchedule.schedules ∧
      findJob (dbUpdateJob dbOneSchedule "j" JStatus.completed) "j" =
        (findJob dbOneSchedule "j").map (fun jb => { jb with status := JStatus.completed })) ∧
    (syncStep { today := 0, time := 33000 } dbOneSchedule noErr (fun _ => true)
        dbOneSchedule "j" = dbUpdateJob dbOneSchedule "j" JStatus.completed ∧
      (dbUpdateJob dbOneSchedule "j" JStatus.completed).schedules = dbOneSchedule.schedules ∧
      findJob (dbUpdateJob dbOneSchedule "j" JStatus.completed) "j" =
        (findJob dbOneSchedule "j").map (fun jb => { jb with status := JStatus.completed })) :=
  status_writes_not_atomic dbOneSchedule "j" "s" JStatus.completed
    { today := 0, time := 33000 } dbOneSchedule dbOneSchedule "j"
    JStatus.completed "s" SStatus.completed (by decide)

/-- C6: the cron route runs the pass once and answers 200 with
`success: true` and a message whenever the fetch succeeded — per-row
update errors (any oracles) are only logged — and answers 500 with
`success: false` and an error string, touching nothing, when the fetch
fails. -/
theorem cron_route_responses (c : Clock) (db : DB) (jE sE : String → Bool) :
    cronGET false c jE sE db =
      (syncPassE c jE sE db,
       { status := 200, success := true,
         message := some "Job statuses updated successfully", error := none }) ∧
    cronGET true c jE sE db =
      (db, { status := 500, success := false, message := none,
             error := some "Failed to update job statuses" }) :=
  ⟨rfl, rfl⟩

/-- C7: signup inserts exactly one row with the request's fields plus a
creation timestamp and returns it; a rejected insert answers 400 with the
backend's message and inserts nothing; any other exception answers 500. -/
theorem signup_route_behavior (users : List UserRow) (b : SignupBody)
    (nowIso msg : String) (e : Option String) :
    signupPOST users (some b) nowIso none =
      (users ++ [{ id := b.id, email := b.email, name := b.name, role := b.role,
                   created_at := nowIso }],
       { status := 200,
         data := some { id := b.id, email := b.email, name := b.name,
                        role := b.role, created_at := nowIso },
         error := none }) ∧
    signupPOST users (some b) nowIso (some msg) =
      (users, { status := 400, data := none, error := some msg }) ∧
    signupPOST users none nowIso e =
      (users, { status := 500, data := none, error := some "Internal server error" }) :=
  ⟨rfl, rfl, rfl⟩

/-- C8: when any per-date schedule insert fails, the created job is kept,
exactly one aggregate error toast is emitted, every selected date was
attempted exactly once (no retries), and no success toast appears. -/
theorem job_kept_on_schedule_failures (dates : List String)
    (failDate : String → Bool) (d : String) (hd : d ∈ dates)
    (hf : failDate d = true) :
    (newJobSubmit dates failDate).jobCreated = true ∧
    (newJobSubmit dates failDate).errorToasts =
      ["Job created but some schedules failed to create"] ∧
    (newJobSubmit dates failDate).scheduleAttempts = dates ∧
    (newJobSubmit dates failDate).successToast = false := by
  have hne : dates.isEmpty = false := by
    cases dates with
    | nil => cases hd
    | cons x xs => rfl
  have hany : dates.any failDate = true := List.any_eq_true.mpr ⟨d, hd, hf⟩
  unfold newJobSubmit
  rw [hne]
  simp [hany]

/-- C8 witness: a two-date submission whose second insert fails. -/
theorem job_kept_on_schedule_failures_witness :
    (newJobSubmit ["2024-01-01", "2024-01-02"] (fun x => x == "2024-01-02")).jobCreated = true ∧
    (newJobSubmit ["2024-01-01", "2024-01-02"] (fun x => x == "2024-01-02")).errorToasts =
      ["Job created but some schedules failed to create"] ∧
    (newJobSubmit ["2024-01-01", "2024-01-02"] (fun x => x == "2024-01-02")).scheduleAttempts =
      ["2024-01-01", "2024-01-02"] ∧
    (newJobSubmit ["2024-01-01", "2024-01-02"] (fun x => x == "2024-01-02")).successToast = false :=
  job_kept_on_schedule_failures ["2024-01-01", "2024-01-02"]
    (fun x => x == "2024-01-02") "2024-01-02" (by decide) (by decide)

/-- C9: for a valid start time and a parsed duration (seconds rounded up
to whole minutes — the first conjunct characterizes the ceiling), the
stored end time is start + duration reduced modulo 24 hours; when the air
window crosses midnight (`1440 ≤ total`, duration under a day) the end
time is strictly smaller than the start time, so on the shared
`scheduled_date` the end timestamp precedes the start timestamp. -/
theorem end_time_wraps_past_midnight (sh sm a dte : Nat) (u : DurUnit)
    (hsh : sh < 24) (hsm : sm < 60)
    (hlt : sh * 60 + sm + durMinutes a u < 2880)
    (hcross : 1440 ≤ sh * 60 + sm + durMinutes a u)
    (hdur : durMinutes a u < 1440) :
    (a ≤ 60 * durMinutes a DurUnit.sec ∧ 60 * durMinutes a DurUnit.sec < a + 60) ∧
    (computeEndTime sh sm (some (a, u))).1 * 60 + (computeEndTime sh sm (some (a, u))).2 =
      (sh * 60 + sm + durMinutes a u) % 1440 ∧
    (computeEndTime sh sm (some (a, u))).1 * 60 + (computeEndTime sh sm (some (a, u))).2 <
      sh * 60 + sm ∧
    tsLtB dte
      ((computeEndTime sh sm (some (a, u))).1 * 60 + (computeEndTime sh sm (some (a, u))).2)
      dte (sh * 60 + sm) = true := by
  have hceil : a ≤ 60 * durMinutes a DurUnit.sec ∧
      60 * durMinutes a DurUnit.sec < a + 60 := by
    simp only [durMinutes]
    omega
  have hmain : (computeEndTime sh sm (some (a, u))).1 * 60 +
        (computeEndTime sh sm (some (a, u))).2 =
      (sh * 60 + sm + durMinutes a u) % 1440 := by
    unfold computeEndTime
    dsimp only
    split_ifs <;> omega
  have hless : (computeEndTime sh sm (some (a, u))).1 * 60 +
        (computeEndTime sh sm (some (a, u))).2 < sh * 60 + sm := by
    rw [hmain]
    omega
  refine ⟨hceil, hmain, hless, ?_⟩
  unfold tsLtB
  simp
  omega

/-- C9 witness: a 45-minute spot airing at 23:30 ends at 00:15, before its
own start on the same date. -/
theorem end_time_wraps_past_midnight_witness :
    ((45 : Nat) ≤ 60 * durMinutes 45 DurUnit.sec ∧
      60 * durMinutes 45 DurUnit.sec < 45 + 60) ∧
    (computeEndTime 23 30 (some (45, DurUnit.min))).1 * 60 +
        (computeEndTime 23 30 (some (45, DurUnit.min))).2 =
      (23 * 60 + 30 + durMinutes 45 DurUnit.min) % 1440 ∧
    (computeEndTime 23 30 (some (45, DurUnit.min))).1 * 60 +
        (computeEndTime 23 30 (some (45, DurUnit.min))).2 < 23 * 60 + 30 ∧
    tsLtB 7
      ((computeEndTime 23 30 (some (45, DurUnit.min))).1 * 60 +
        (computeEndTime 23 30 (some (45, DurUnit.min))).2)
      7 (23 * 60 + 30) = true :=
  end_time_wraps_past_midnight 23 30 45 7 DurUnit.min (by decide) (by decide)
    (by decide) (by decide) (by decide)

theorem foldl_add_amounts (l : List InvItemRow) :
    ∀ t : ℚ, l.foldl (fun t it => t + it.amount.getD 0) t =
      t + (l.map (fun it => it.amount.getD 0)).sum := by
  induction l with
  | nil => intro t; simp
  | cons x l ih =>
    intro t
    simp only [List.foldl_cons, List.map_cons, List.sum_cons, ih]
    ring

/-- C10: the PDF total is the sum of the line items' `amount` (missing
counted as 0) and the printed number is INV plus the last six characters
of the invoice id — both independent of the stored `total_amount` and
`invoice_number` fields, the latter being generated elsewhere as INV-
followed by a timestamp. -/
theorem pdf_total_and_invoice_number (inv : InvoiceRow) (n : String)
    (t : ℚ) (ts : Nat) (h6 : 6 ≤ inv.id.length) :
    pdfTotal inv = (inv.items.map (fun it => it.amount.getD 0)).sum ∧
    pdfInvoiceNumber inv =
      "INV" ++ String.mk (inv.id.data.drop (inv.id.data.length - 6)) ∧
    pdfTotal { inv with total_amount := t, invoice_number := n } = pdfTotal inv ∧
    pdfInvoiceNumber { inv with total_amount := t, invoice_number := n } =
      pdfInvoiceNumber inv ∧
    invoiceNumberFromTimestamp ts = "INV-" ++ toString ts := by
  refine ⟨?_, ?_, rfl, rfl, rfl⟩
  · unfold pdfTotal
    rw [foldl_add_amounts]
    simp
  · have hlen : (sliceLast6 inv.id).length = 6 := by
      unfold sliceLast6
      rw [List.length_drop]
      have hl : inv.id.data.length = inv.id.length := rfl
      omega
    have hpad : padStart6 (sliceLast6 inv.id) = sliceLast6 inv.id := by
      unfold padStart6
      rw [hlen]
      simp
    show String.mk ('I' :: 'N' :: 'V' :: padStart6 (sliceLast6 inv.id)) = _
    rw [hpad]
    rfl

/-- C10 witness: an eight-character id and a two-item invoice, one item
with a null amount. -/
theorem pdf_total_and_invoice_number_witness :
    pdfTotal { id := "abcdefgh", invoice_number := "INV-1700000000000",
               total_amount := 999,
               items := [{ jobTitle := "spot A", amount := some 5 },
                         { jobTitle := "spot B", amount := none }] } =
      (([{ jobTitle := "spot A", amount := some 5 },
          { jobTitle := "spot B", amount := none }] : List InvItemRow).map
        (fun it => it.amount.getD (0 : ℚ))).sum ∧
    pdfInvoiceNumber { id := "abcdefgh", invoice_number := "INV-1700000000000",
                       total_amount := 999,
                       items := [{ jobTitle := "spot A", amount := some 5 },
                                 { jobTitle := "spot B", amount := none }] } =
      "INV" ++ String.mk (("abcdefgh" : String).data.drop
        (("abcdefgh" : String).data.length - 6)) ∧
    pdfTotal { id := "abcdefgh", invoice_number := "zzz", total_amount := 7,
               items := [{ jobTitle := "spot A", amount := some 5 },
                         { jobTitle := "spot B", amount := none }] } =
      pdfTotal { id := "abcdefgh", invoice_number := "INV-1700000000000",
                 total_amount := 999,
                 items := [{ jobTitle := "spot A", amount := some 5 },
                           { jobTitle := "spot B", amount := none }] } ∧
    pdfInvoiceNumber { id := "abcdefgh", invoice_number := "zzz", total_amount := 7,
                       items := [{ jobTitle := "spot A", amount := some 5 },
                                 { jobTitle := "spot B", amount := none }] } =
      pdfInvoiceNumber { id := "abcdefgh", invoice_number := "INV-1700000000000",
                         total_amount := 999,
                         items := [{ jobTitle := "spot A", amount := some 5 },
                                   { jobTitle := "spot B", amount := none }] } ∧
    invoiceNumberFromTimestamp 1700000000000 = "INV-" ++ toString 1700000000000 :=
  pdf_total_and_invoice_number
    { id := "abcdefgh", invoice_number := "INV-1700000000000", total_amount := 999,
      items := [{ jobTitle := "spot A", amount := some 5 },
                { jobTitle := "spot B", amount := none }] }
    "zzz" 7 1700000000000 (by decide)

theorem schRel_refl (s : Sched) : SchRel s s :=
  ⟨rfl, rfl, rfl, rfl, rfl, fun _ => rfl, fun h => h⟩

/-- One `eq('id', sid)` schedule-status write preserves `SchRel` against
the original table, provided the target id is not a cancelled row's id and
the written status is not cancelled. -/
theorem forall2_schRel_update (l0 ls : List Sched) (sid : String) (ss : SStatus)
    (hss : ss ≠ SStatus.cancelled)
    (hsid : ∀ s ∈ l0, s.status = SStatus.cancelled → s.id ≠ sid)
    (h : List.Forall₂ SchRel l0 ls) :
    List.Forall₂ SchRel l0
      (ls.map (fun s => if s.id = sid then { s with status := ss } else s)) := by
  induction h with
  | nil => exact List.Forall₂.nil
  | @cons a b l1 l2 hR hrest ih =>
    rw [List.map_cons]
    refine List.Forall₂.cons ?_ (ih (fun s hs => hsid s (List.mem_cons_of_mem _ hs)))
    obtain ⟨hid, hjid, hdate, hstart, hend, hcanc, hbcanc⟩ := hR
    by_cases hb : b.id = sid
    · rw [if_pos hb]
      have hanc : a.status ≠ SStatus.cancelled := fun hca =>
        hsid a (List.mem_cons_self _ _) hca (hid.symm.trans hb)
      refine ⟨hid, hjid, hdate, hstart, hend, ?_, ?_⟩
      · intro hca
        exact absurd hca hanc
      · intro hcb
        exact absurd hcb hss
    · rw [if_neg hb]
      exact ⟨hid, hjid, hdate, hstart, hend, hcanc, hbcanc⟩

/-- The sync pass relates the schedules table to its updated self by
`SchRel` (unique schedule ids). -/
theorem syncPass_schedules_rel (c : Clock) (db : DB)
    (hnd : (db.schedules.map Sched.id).Nodup) :
    List.Forall₂ SchRel db.schedules (syncPass c db).schedules := by
  rw [syncPass, syncPassE]
  have main : ∀ ids acc, List.Forall₂ SchRel db.schedules acc.schedules →
      List.Forall₂ SchRel db.schedules
        (List.foldl (syncStep c db noErr noErr) acc ids).schedules := by
    intro ids
    induction ids with
    | nil => intro acc h; exact h
    | cons x rest ih =>
      intro acc h
      rw [List.foldl_cons]
      apply ih
      cases hd : syncDecision c db x with
      | none => rw [syncStep_none _ _ _ _ _ _ hd]; exact h
      | some u =>
        obtain ⟨js, sid, ss⟩ := u
        obtain ⟨L, jb, hL, hjb, hsid, hbranch⟩ := syncDecision_inv _ _ _ _ _ _ hd
        have hss : ss ≠ SStatus.cancelled := by
          rcases hbranch with ⟨-, h2, -⟩ | ⟨-, h2, -⟩ <;> rw [h2] <;> intro hh <;> cases hh
        have hmemL := latestSchedule_mem _ _ hL
        obtain ⟨hLs, hLnc, -⟩ := mem_groupOf _ _ _ hmemL
        subst hsid
        unfold syncStep
        rw [hd]
        show List.Forall₂ SchRel db.schedules
          (dbUpdateSchedule (dbUpdateJob acc x js) L.id ss).schedules
        have hsched : (dbUpdateSchedule (dbUpdateJob acc x js) L.id ss).schedules =
            acc.schedules.map
              (fun s => if s.id = L.id then { s with status := ss } else s) := rfl
        rw [hsched]
        apply forall2_schRel_update _ _ _ _ hss ?_ h
        intro s hs hcanc heq
        have hsl : s = L := List.inj_on_of_nodup_map hnd hs hLs heq
        rw [hsl] at hcanc
        exact hLnc hcanc
  exact main (jobIds db) db (List.forall₂_same.mpr (fun s _ => schRel_refl s))

/-- Filtering out cancelled rows respects `SchRel` pairs. -/
theorem forall2_fetched_rel (l l' : List Sched)
    (h : List.Forall₂ SchRel l l') :
    List.Forall₂ SchRel
      (l.filter (fun s => !(s.status == SStatus.cancelled)))
      (l'.filter (fun s => !(s.status == SStatus.cancelled))) := by
  induction h with
  | nil => exact List.Forall₂.nil
  | @cons a b l1 l2 hR hrest ih =>
    obtain ⟨hid, hjid, hdate, hstart, hend, hcanc, hbcanc⟩ := hR
    by_cases hc : a.status = SStatus.cancelled
    · have hcb : b.status = SStatus.cancelled := by rw [hcanc hc]; exact hc
      rw [List.filter_cons, List.filter_cons, if_neg (by simp [hc]), if_neg (by simp [hcb])]
      exact ih
    · have hcb : b.status ≠ SStatus.cancelled := fun hb => hc (hbcanc hb)
      rw [List.filter_cons, List.filter_cons, if_pos (by simp [hc]), if_pos (by simp [hcb])]
      exact List.Forall₂.cons ⟨hid, hjid, hdate, hstart, hend, hcanc, hbcanc⟩ ih

/-- Filtering a group by `job_id` respects `SchRel` pairs. -/
theorem forall2_group_rel (l l' : List Sched) (j : String)
    (h : List.Forall₂ SchRel l l') :
    List.Forall₂ SchRel
      (l.filter (fun s => s.job_id == j)) (l'.filter (fun s => s.job_id == j)) := by
  induction h with
  | nil => exact List.Forall₂.nil
  | @cons a b l1 l2 hR hrest ih =>
    have hjid : b.job_id = a.job_id := hR.2.1
    by_cases hj : a.job_id = j
    · rw [List.filter_cons, List.filter_cons, if_pos (by simp [hj]),
        if_pos (by simp [hjid, hj])]
      exact List.Forall₂.cons hR ih
    · rw [List.filter_cons, List.filter_cons, if_neg (by simp [hj]),
        if_neg (by simp [hjid, hj])]
      exact ih

theorem forall2_foldl_pickLater (l l' : List Sched)
    (h : List.Forall₂ SchRel l l') :
    ∀ a b, SchRel a b → SchRel (l.foldl pickLater a) (l'.foldl pickLater b) := by
  induction h with
  | nil => intro a b hab; exact hab
  | @cons x y l1 l2 hR hrest ih =>
    intro a b hab
    rw [List.foldl_cons, List.foldl_cons]
    apply ih
    unfold pickLater
    rw [hab.2.2.1, hab.2.2.2.2.1, hR.2.2.1, hR.2.2.2.2.1]
    by_cases hc : tsLtB a.scheduled_date a.end_time x.scheduled_date x.end_time = true
    · rw [if_pos hc, if_pos hc]
      exact hR
    · rw [if_neg hc, if_neg hc]
      exact hab

/-- The latest schedules of `SchRel`-related groups are both absent or
`SchRel`-related. -/
theorem forall2_latest_rel (l l' : List Sched)
    (h : List.Forall₂ SchRel l l') :
    (latestSchedule l = none ∧ latestSchedule l' = none) ∨
    (∃ a b, latestSchedule l = some a ∧ latestSchedule l' = some b ∧ SchRel a b) := by
  cases h with
  | nil => exact Or.inl ⟨rfl, rfl⟩
  | @cons a b l1 l2 hR hrest =>
    exact Or.inr ⟨_, _, rfl, rfl, forall2_foldl_pickLater _ _ hrest a b hR⟩

/-- C3: with unique schedule ids, running the error-free sync pass twice
at the same clock leaves the state of the first run unchanged — the
second run takes no decision, hence performs no job or schedule write. -/
theorem syncPass_idempotent (c : Clock) (db : DB)
    (hnd : (db.schedules.map Sched.id).Nodup) :
    syncPass c (syncPass c db) = syncPass c db := by
  have hrel : List.Forall₂ SchRel db.schedules (syncPass c db).schedules :=
    syncPass_schedules_rel c db hnd
  have hdecnone : ∀ j, syncDecision c (syncPass c db) j = none := by
    intro j
    have hG : List.Forall₂ SchRel (groupOf db j) (groupOf (syncPass c db) j) := by
      unfold groupOf fetched
      exact forall2_group_rel _ _ j (forall2_fetched_rel _ _ hrel)
    cases hdec : syncDecision c db j with
    | none =>
      have hfj : findJob (syncPass c db) j = findJob db j := by
        rw [syncPass, syncPassE]
        exact foldl_syncStep_findJob_nonedec c db noErr noErr (jobIds db) j hdec db
      rcases forall2_latest_rel _ _ hG with ⟨ha, hb⟩ | ⟨a, b, ha, hb, hab⟩
      · unfold syncDecision
        rw [hb]
      · unfold syncDecision
        rw [hb, hfj]
        cases hjb : findJob db j with
        | none => rfl
        | some jb =>
          unfold syncDecision at hdec
          rw [ha, hjb] at hdec
          dsimp only at hdec
          dsimp only
          split_ifs at hdec with h1 h2
          rw [if_neg ?nb1, if_neg ?nb2]
          case nb1 =>
            rw [hab.2.2.1, hab.2.2.2.2.1]
            exact h1
          case nb2 =>
            rw [hab.2.2.1, hab.2.2.2.1, hab.2.2.2.2.1]
            exact h2
    | some u =>
      obtain ⟨js, sid, ss⟩ := u
      obtain ⟨L, jb, hL, hjb, hsid, hbranch⟩ := syncDecision_inv _ _ _ _ _ _ hdec
      have hjmem : j ∈ jobIds db :=
        mem_jobIds_of_group _ _ _ (latestSchedule_mem _ _ hL)
      have hfj : findJob (syncPass c db) j = some { jb with status := js } := by
        rw [syncPass, syncPassE,
          foldl_syncStep_findJob_mem c db _ (jobIds_nodup db) j hjmem _ _ _ hdec db, hjb]
        rfl
      rcases forall2_latest_rel _ _ hG with ⟨ha, hb⟩ | ⟨a, b, ha, hb, hab⟩
      · rw [hL] at ha
        cases ha
      · rw [hL] at ha
        injection ha with ha'
        subst ha'
        unfold syncDecision
        rw [hb, hfj]
        dsimp only
        rcases hbranch with ⟨hjs, hss, hpast, hnc⟩ | ⟨hjs, hss, hnot, hdate, hst, hen, hnp⟩
        · subst hjs
          rw [if_neg ?c1, if_neg ?c2]
          case c1 =>
            rintro ⟨-, hne⟩
            exact hne rfl
          case c2 =>
            rintro ⟨hbd, -, hbt, -⟩
            rw [hab.2.2.1] at hbd
            rw [hab.2.2.2.2.1] at hbt
            rw [hbd] at hpast
            simp [tsLtB] at hpast
            omega
        · subst hjs
          rw [if_neg ?d1, if_neg ?d2]
          case d1 =>
            rintro ⟨hbp, -⟩
            rw [hab.2.2.1, hab.2.2.2.2.1] at hbp
            rw [hdate] at hbp
            simp [tsLtB] at hbp
            omega
          case d2 =>
            rintro ⟨-, -, -, hne⟩
            exact hne rfl
  conv_lhs => rw [syncPass, syncPassE]
  exact foldl_syncStep_id c (syncPass c db) noErr noErr (jobIds (syncPass c db))
    (syncPass c db) (fun j _ => hdecnone j)

/-- C3 witness: the worked example at 09:10 — the first pass changes the
state, the second changes nothing. -/
theorem syncPass_idempotent_witness :
    syncPass { today := 0, time := 33000 }
        (syncPass { today := 0, time := 33000 } dbOneSchedule) =
      syncPass { today := 0, time := 33000 } dbOneSchedule :=
  syncPass_idempotent { today := 0, time := 33000 } dbOneSchedule (by decide)

end RadioRevenue
